import Mathlib

/-!
Verification of the LindseyWebsite maintenance-script core: the artwork
description-file field parser (`merge_artworks.py` / `import_artwork.py`),
the directory validator (`test_dir_img_txt_title_match.py`), and the
print-ratio matcher (`add_valid_ratios.py`).  Text is modelled as
`List Char`; Python's whitespace set, `str.strip`, `str.lower` (ASCII
case mapping) and the relevant regular expressions are embedded
explicitly.  Fallible code paths (Python exceptions) are modelled with
`Except`.
-/

set_option maxRecDepth 4096

/-- Codepoints of the characters Python's `str.strip` / `str.isspace` and
`re`'s `\s` treat as whitespace. -/
def pyWhitespaceCodes : List Nat :=
  [9, 10, 11, 12, 13, 28, 29, 30, 31, 32, 133, 160, 5760,
   8192, 8193, 8194, 8195, 8196, 8197, 8198, 8199, 8200, 8201, 8202,
   8232, 8233, 8239, 8287, 12288]

/-- Python whitespace test (`str.isspace` / regex `\s`). -/
def pyIsSpace (c : Char) : Bool := pyWhitespaceCodes.contains c.toNat

/-- Character class `[ \t]` used by the validator's title regex. -/
def isSpaceTab (c : Char) : Bool := c = ' ' || c = '\t'

/-- Regex class `[A-Za-z]` (ASCII letters), as used by the field-header
regex `^([A-Za-z]+)($|\s.*)`. -/
def isAsciiAlpha (c : Char) : Bool :=
  (65 ≤ c.toNat && c.toNat ≤ 90) || (97 ≤ c.toNat && c.toNat ≤ 122)

/-- Python `str.lstrip()` on a character list. -/
def pyLStrip (l : List Char) : List Char := l.dropWhile pyIsSpace

/-- Python `str.rstrip()` on a character list. -/
def pyRStrip (l : List Char) : List Char := (l.reverse.dropWhile pyIsSpace).reverse

/-- Python `str.strip()` on a character list. -/
def pyStrip (l : List Char) : List Char := pyRStrip (pyLStrip l)

/-- Python `str.lower()` restricted to the ASCII case mapping (all the
strings compared case-insensitively by these scripts are ASCII). -/
def lowerList (l : List Char) : List Char := l.map Char.toLower

/-! ## Field parser (`parse_artwork_file` in `merge_artworks.py` and
`import_artwork.py`; the two copies have identical parsing logic). -/

/-- Python's `line.startswith('\t') or line.startswith('    ')`. -/
def startsWithTabOr4 (line : List Char) : Bool :=
  match line with
  | '\t' :: _ => true
  | ' ' :: ' ' :: ' ' :: ' ' :: _ => true
  | _ => false

/-- Group 1 of the header regex: the maximal leading run of ASCII letters. -/
def headerToken (line : List Char) : List Char := line.takeWhile isAsciiAlpha

/-- Parser state: the accumulated dictionary (insertion order, as a Python
dict), the current field name, and the pending content lines. -/
structure PState where
  fields : List (List Char × List Char)
  cur : Option (List Char)
  content : List (List Char)
deriving DecidableEq

/-- Python dict assignment `m[k] = v`: overwrite in place if the key is
present, otherwise append. -/
def dictSet (m : List (List Char × List Char)) (k v : List Char) :
    List (List Char × List Char) :=
  if m.any (fun p => p.1 = k) then
    m.map (fun p => if p.1 = k then (k, v) else p)
  else m ++ [(k, v)]

/-- Python `'\n'.join(ls)`. -/
def joinNL (ls : List (List Char)) : List Char := List.intercalate ['\n'] ls

/-- Saving the current field: `artwork[current_field.lower()] =
'\n'.join(field_content).strip()`. -/
def flushCur (st : PState) : List (List Char × List Char) :=
  match st.cur with
  | none => st.fields
  | some f => dictSet st.fields (lowerList f) (pyStrip (joinNL st.content))

/-- One iteration of `parse_artwork_file`'s line loop. -/
def stepLine (st : PState) (raw : List Char) : PState :=
  let line := pyRStrip raw
  if pyStrip line = [] then st
  else if startsWithTabOr4 line = false then
    let F := headerToken line
    let R := line.drop F.length
    if F ≠ [] ∧ R.head?.all pyIsSpace = true then
      let rem := pyStrip R
      { fields := flushCur st
        cur := some F
        content := if rem ≠ [] ∧ rem.head? ≠ some '-' then [rem] else [] }
    else st
  else if st.cur.isSome then { st with content := st.content ++ [pyStrip line] }
  else st

/-- `parse_artwork_file` on a list of raw lines. -/
def parseArtworkLines (ls : List (List Char)) : List (List Char × List Char) :=
  flushCur (ls.foldl stepLine ⟨[], none, []⟩)

/-- `parse_artwork_file` on a whole file text (file iteration yields the
text split at newlines). -/
def parse_artwork_file (s : List Char) : List (List Char × List Char) :=
  parseArtworkLines (s.splitOn '\n')

/-- Example text of claim C3. -/
def c3Text : List Char := "Title\n\tFoo Bar\nArtDescription\n\tHello\n\tWorld\n".toList

/-- First whitespace-delimited token of a line (`line.split()[0]`). -/
def firstTok (l : List Char) : List Char :=
  (l.dropWhile pyIsSpace).takeWhile (fun c => !pyIsSpace c)

/-- A raw input line that the parser ignores completely: non-blank, not
indented (no leading tab or four spaces), and its first token is not a
pure run of ASCII letters, so the header regex does not match. -/
def inertLine (raw : List Char) : Bool :=
  let line := pyRStrip raw
  !(pyStrip line).isEmpty && !startsWithTabOr4 line &&
    !(firstTok line).all isAsciiAlpha

lemma pyIsSpace_not_alpha {c : Char} (h : pyIsSpace c = true) :
    isAsciiAlpha c = false := by
  simp only [pyIsSpace, List.contains, List.elem_iff] at h
  simp only [pyWhitespaceCodes, List.mem_cons, List.not_mem_nil, or_false] at h
  simp only [isAsciiAlpha, Bool.or_eq_false_iff, Bool.and_eq_false_iff,
    decide_eq_false_iff_not, not_le]
  omega

lemma alpha_not_space {c : Char} (h : isAsciiAlpha c = true) :
    pyIsSpace c = false := by
  cases hs : pyIsSpace c with
  | false => rfl
  | true => rw [pyIsSpace_not_alpha hs] at h; exact absurd h (by simp)

/-- On a line whose maximal letter run is followed by whitespace (or the
line end), the first whitespace-delimited run coincides with the letter
run. -/
lemma takeWhile_notSpace_eq_alpha :
    ∀ l : List Char,
      (l.drop (l.takeWhile isAsciiAlpha).length).head?.all pyIsSpace = true →
      l.takeWhile (fun c => !pyIsSpace c) = l.takeWhile isAsciiAlpha := by
  intro l
  induction l with
  | nil => intro _; rfl
  | cons c t ih =>
    intro h
    cases ha : isAsciiAlpha c with
    | true =>
      simp only [List.takeWhile_cons, ha, alpha_not_space ha, Bool.not_false,
        if_true, cond_true] at *
      simp only [List.length_cons, List.drop_succ_cons] at h
      rw [ih h]
    | false =>
      simp only [List.takeWhile_cons, ha, Bool.false_eq_true, if_false,
        List.length_nil, List.drop_zero, List.head?_cons, Option.all_some] at h ⊢
      simp [List.takeWhile_cons, h]

/-- The header regex `^([A-Za-z]+)($|\s.*)` fails on every line whose
first whitespace-delimited token is not purely alphabetic; such a line
leaves the parser state untouched. -/
lemma stepLine_inert (st : PState) (raw : List Char)
    (h : inertLine raw = true) : stepLine st raw = st := by
  simp only [inertLine, Bool.and_eq_true, Bool.not_eq_true'] at h
  obtain ⟨⟨hnb, hni⟩, htok⟩ := h
  have h1 : ¬ (pyStrip (pyRStrip raw) = []) := by
    intro he
    rw [he] at hnb
    exact absurd hnb (by decide)
  have h2 : ¬ (headerToken (pyRStrip raw) ≠ [] ∧
      Option.all pyIsSpace
        (List.drop (headerToken (pyRStrip raw)).length (pyRStrip raw)).head? = true) := by
    rintro ⟨hF, hR⟩
    have hfirst : firstTok (pyRStrip raw) = headerToken (pyRStrip raw) := by
      unfold firstTok
      have hhead : (pyRStrip raw).dropWhile pyIsSpace = pyRStrip raw := by
        cases hl : pyRStrip raw with
        | nil => rfl
        | cons c t =>
          have hc : isAsciiAlpha c = true := by
            rw [hl] at hF
            unfold headerToken at hF
            rw [List.takeWhile_cons] at hF
            cases hac : isAsciiAlpha c with
            | true => rfl
            | false => rw [hac] at hF; simp at hF
          simp [List.dropWhile_cons, alpha_not_space hc]
      rw [hhead]
      exact takeWhile_notSpace_eq_alpha _ hR
    rw [hfirst] at htok
    have hall : (headerToken (pyRStrip raw)).all isAsciiAlpha = true :=
      List.all_takeWhile
    rw [hall] at htok
    exact absurd htok (by decide)
  simp only [stepLine]
  rw [if_neg h1, if_pos hni, if_neg h2]

/-- Claim C9: deleting every inert line from the input leaves the parse
result unchanged. -/
lemma foldl_stepLine_filter_inert :
    ∀ (ls : List (List Char)) (st : PState),
      (ls.filter (fun l => !inertLine l)).foldl stepLine st = ls.foldl stepLine st := by
  intro ls
  induction ls with
  | nil => intro st; rfl
  | cons l t ih =>
    intro st
    cases hi : inertLine l with
    | true =>
      have hf : (l :: t).filter (fun x => !inertLine x) =
          t.filter (fun x => !inertLine x) := by simp [hi]
      rw [hf, List.foldl_cons, stepLine_inert st l hi, ih st]
    | false =>
      have hf : (l :: t).filter (fun x => !inertLine x) =
          l :: t.filter (fun x => !inertLine x) := by simp [hi]
      rw [hf, List.foldl_cons, List.foldl_cons]
      exact ih (stepLine st l)

/-- Claim C3: parsing the text `"Title\n\tFoo Bar\nArtDescription\n\tHello\n\tWorld\n"`
returns exactly the mapping `title -> "Foo Bar"`, `artdescription ->
"Hello\nWorld"`: content lines between a header and the next header are
joined with newlines, trimmed, and stored under the lower-cased field name. -/
theorem parse_c3_example :
    parse_artwork_file c3Text =
      [("title".toList, "Foo Bar".toList),
       ("artdescription".toList, "Hello\nWorld".toList)] := by decide

/-- Claim C9: a non-blank, non-indented line whose first
whitespace-delimited token is not purely alphabetic has no effect on the
parse: the result on the input with every such line deleted equals the
result on the original input. -/
theorem parse_ignores_inert_lines (s : List Char) :
    parseArtworkLines ((s.splitOn '\n').filter (fun l => !inertLine l)) =
      parse_artwork_file s := by
  unfold parse_artwork_file parseArtworkLines
  rw [foldl_stepLine_filter_inert]

/-! ## Strip idempotence and the parser's field invariants (claim C10). -/

lemma dropWhile_dropWhile_self {α : Type} (p : α → Bool) :
    ∀ l : List α, (l.dropWhile p).dropWhile p = l.dropWhile p := by
  intro l
  induction l with
  | nil => rfl
  | cons c t ih =>
    cases hp : p c with
    | true => simp [List.dropWhile_cons, hp, ih]
    | false => simp [List.dropWhile_cons, hp]

lemma pyRStrip_isPrefix (l : List Char) : pyRStrip l <+: l := by
  unfold pyRStrip
  conv_rhs => rw [← List.reverse_reverse l]
  exact List.reverse_prefix.mpr (List.dropWhile_suffix _)

lemma pyRStrip_idem (l : List Char) : pyRStrip (pyRStrip l) = pyRStrip l := by
  unfold pyRStrip
  rw [List.reverse_reverse, dropWhile_dropWhile_self]

lemma notSpace_head_of_lstripped {l : List Char} {c : Char} {s : List Char}
    (h : pyLStrip l = l) (hl : l = c :: s) : pyIsSpace c = false := by
  cases hcs : pyIsSpace c with
  | false => rfl
  | true =>
    rw [hl] at h
    unfold pyLStrip at h
    rw [List.dropWhile_cons, hcs] at h
    simp only [if_true, cond_true] at h
    have hle := (List.dropWhile_suffix (l := s) pyIsSpace).length_le
    rw [h] at hle
    simp at hle

lemma pyLStrip_pyRStrip_of_lstripped {l : List Char} (h : pyLStrip l = l) :
    pyLStrip (pyRStrip l) = pyRStrip l := by
  cases hl : pyRStrip l with
  | nil => rfl
  | cons c t =>
    have hpre := pyRStrip_isPrefix l
    rw [hl] at hpre
    obtain ⟨r, hr⟩ := hpre
    have hc : pyIsSpace c = false :=
      notSpace_head_of_lstripped h (by rw [← hr]; rfl)
    unfold pyLStrip
    rw [List.dropWhile_cons, hc]
    rfl

lemma pyLStrip_idem (l : List Char) : pyLStrip (pyLStrip l) = pyLStrip l :=
  dropWhile_dropWhile_self pyIsSpace l

lemma pyStrip_idem (l : List Char) : pyStrip (pyStrip l) = pyStrip l := by
  unfold pyStrip
  rw [pyLStrip_pyRStrip_of_lstripped (pyLStrip_idem l), pyRStrip_idem]

/-- Invariant of claim C10 for one stored field. -/
def GoodKV (k v : List Char) : Prop :=
  (k ≠ [] ∧ ∃ F, F ≠ [] ∧ F.all isAsciiAlpha = true ∧ k = lowerList F) ∧
    pyStrip v = v

/-- Invariant of the parser state. -/
def PInv (st : PState) : Prop :=
  (∀ k v, (k, v) ∈ st.fields → GoodKV k v) ∧
    ∀ F, st.cur = some F → F ≠ [] ∧ F.all isAsciiAlpha = true

lemma dictSet_mem {m : List (List Char × List Char)} {k v k0 v0 : List Char}
    (h : (k, v) ∈ dictSet m k0 v0) : (k, v) ∈ m ∨ (k = k0 ∧ v = v0) := by
  unfold dictSet at h
  split at h
  · obtain ⟨p, hp, he⟩ := List.mem_map.mp h
    by_cases hpk : p.1 = k0
    · rw [if_pos hpk] at he
      right
      exact ⟨(Prod.ext_iff.mp he).1.symm, (Prod.ext_iff.mp he).2.symm⟩
    · rw [if_neg hpk] at he
      left
      rw [← he]
      exact hp
  · rcases List.mem_append.mp h with hm | hm
    · exact Or.inl hm
    · right
      have := List.mem_singleton.mp hm
      exact ⟨(Prod.ext_iff.mp this).1, (Prod.ext_iff.mp this).2⟩

lemma flushCur_good {st : PState} (hinv : PInv st) :
    ∀ k v, (k, v) ∈ flushCur st → GoodKV k v := by
  intro k v h
  unfold flushCur at h
  cases hc : st.cur with
  | none => rw [hc] at h; exact hinv.1 k v h
  | some f =>
    rw [hc] at h
    rcases dictSet_mem h with hm | ⟨hk, hv⟩
    · exact hinv.1 k v hm
    · obtain ⟨hf1, hf2⟩ := hinv.2 f hc
      refine ⟨⟨?_, f, hf1, hf2, hk⟩, ?_⟩
      · rw [hk]
        unfold lowerList
        intro he
        exact hf1 (List.map_eq_nil_iff.mp he)
      · rw [hv]
        exact pyStrip_idem _

lemma stepLine_inv {st : PState} (raw : List Char) (hinv : PInv st) :
    PInv (stepLine st raw) := by
  by_cases hA : pyStrip (pyRStrip raw) = []
  · simp only [stepLine, if_pos hA]
    exact hinv
  · by_cases hB : startsWithTabOr4 (pyRStrip raw) = false
    · by_cases hC : headerToken (pyRStrip raw) ≠ [] ∧
        Option.all pyIsSpace
          (List.drop (headerToken (pyRStrip raw)).length (pyRStrip raw)).head? = true
      · simp only [stepLine, if_neg hA, if_pos hB, if_pos hC]
        refine ⟨fun k v h => flushCur_good hinv k v h, fun F hF => ?_⟩
        have : F = headerToken (pyRStrip raw) := by
          injection hF with h2
          exact h2.symm
        rw [this]
        exact ⟨hC.1, List.all_takeWhile⟩
      · simp only [stepLine, if_neg hA, if_pos hB, if_neg hC]
        exact hinv
    · by_cases hD : st.cur.isSome = true
      · simp only [stepLine, if_neg hA, if_neg hB, if_pos hD]
        exact ⟨hinv.1, hinv.2⟩
      · simp only [stepLine, if_neg hA, if_neg hB, if_neg hD]
        exact hinv

lemma foldl_stepLine_inv :
    ∀ (ls : List (List Char)) (st : PState), PInv st → PInv (ls.foldl stepLine st) := by
  intro ls
  induction ls with
  | nil => intro st h; exact h
  | cons l t ih => intro st h; exact ih (stepLine st l) (stepLine_inv l h)

/-- Claim C10: the parser is total, and every stored field has a
non-empty key that is the lower-casing of an all-letter header token, and
a value with no leading or trailing whitespace (stripping it is the
identity). -/
theorem parse_fields_wellformed (s : List Char) (k v : List Char)
    (h : (k, v) ∈ parse_artwork_file s) :
    (k ≠ [] ∧ ∃ F, F ≠ [] ∧ F.all isAsciiAlpha = true ∧ k = lowerList F) ∧
      pyStrip v = v := by
  unfold parse_artwork_file parseArtworkLines at h
  have hinit : PInv (⟨[], none, []⟩ : PState) := by
    constructor
    · intro k v hm
      cases hm
    · intro F hF
      cases hF
  exact flushCur_good (foldl_stepLine_inv _ _ hinit) k v h

/-- Witness for claim C10 at the concrete example text. -/
theorem parse_fields_wellformed_witness :
    (("title".toList, "Foo Bar".toList) ∈ parse_artwork_file c3Text) ∧
      (("title".toList ≠ ([] : List Char) ∧
          ∃ F, F ≠ [] ∧ F.all isAsciiAlpha = true ∧ "title".toList = lowerList F) ∧
        pyStrip ("Foo Bar".toList) = "Foo Bar".toList) :=
  ⟨by decide, parse_fields_wellformed c3Text _ _ (by decide)⟩

/-! ## Directory validator: the title check (claim C1).

`get_valid_art_directories` decides the title check with
`re.search(r'Title\s*\n[ \t]+([^\n]+)', txt_content)` followed by
`title_match.group(1).strip()`.  The search is embedded with Python's
leftmost-match, greedy-quantifier semantics: positions are scanned in
ascending order; at a fixed position, `\s*` backtracks from the longest
whitespace run. -/

/-- Whether `[ \t]+([^\n]+)` matches at the start of `v`: a space or tab
followed by at least one further non-newline character. -/
def tailOk (v : List Char) : Bool :=
  match v with
  | a :: b :: _ => isSpaceTab a && b ≠ '\n'
  | _ => false

/-- The group captured by `[ \t]+([^\n]+)` under greedy matching: the rest
of the line after its maximal space/tab run, or (by backtracking, when the
line is entirely spaces/tabs) the line's last character. -/
def capturedGroup (v : List Char) : List Char :=
  let line := v.takeWhile (fun c => c ≠ '\n')
  let r := line.dropWhile isSpaceTab
  if r = [] then [line.getLastD ' '] else r

/-- Length of the maximal whitespace run at the start of `t`. -/
def wsRunLen (t : List Char) : Nat := (t.takeWhile pyIsSpace).length

/-- Greedy choice of the newline consumed by `\s*\n`: the largest
whitespace-run position `j` holding a newline after which the tail
matches. -/
def greedyNewline (t : List Char) : Option Nat :=
  (List.range (wsRunLen t)).reverse.find?
    (fun j => decide (t[j]? = some '\n') && tailOk (t.drop (j + 1)))

/-- Attempt of the whole pattern at position `i` of `s`, returning the
captured group. -/
def titleBlockAt (s : List Char) (i : Nat) : Option (List Char) :=
  if ("Title".toList).isPrefixOf (s.drop i) then
    (greedyNewline (s.drop (i + 5))).map
      (fun j => capturedGroup ((s.drop (i + 5)).drop (j + 1)))
  else none

/-- `re.search`: the leftmost position where the pattern matches. -/
def titleSearch (s : List Char) : Option (List Char) :=
  (List.range s.length).findSome? (fun i => titleBlockAt s i)

/-- The validator's title check: the search matched and the captured
group is non-empty after stripping. -/
def hasTitleCheck (s : List Char) : Bool :=
  match titleSearch s with
  | some g => !(pyStrip g).isEmpty
  | none => false

/-- The extracted title (`title_match.group(1).strip()`), when the check
passes. -/
def extractedTitle (s : List Char) : Option (List Char) :=
  match titleSearch s with
  | some g => if (pyStrip g).isEmpty then none else some (pyStrip g)
  | none => none

/-- The lines of a text, split at newline characters. -/
def linesOf (s : List Char) : List (List Char) := s.splitOn '\n'

/-- A line consisting solely of the word `Title`, possibly with trailing
whitespace (the reading of claim C1). -/
def soleTitleLine (l : List Char) : Prop :=
  l.take 5 = "Title".toList ∧ (l.drop 5).all pyIsSpace = true

/-- A line that begins with a space or tab and has non-empty trimmed
content (the reading of claim C1). -/
def indentedContentLine (l : List Char) : Prop :=
  (∃ c, l.head? = some c ∧ isSpaceTab c = true) ∧ pyStrip l ≠ []

/-- The pattern stated by claim C1: a `Title`-only line followed, not
necessarily immediately, by an indented line with non-empty content. -/
def claimedTitlePattern (s : List Char) : Prop :=
  ∃ j < (linesOf s).length, ∃ i < j,
    soleTitleLine ((linesOf s).getD i []) ∧
      indentedContentLine ((linesOf s).getD j [])

instance soleTitleLine.instDec (l : List Char) : Decidable (soleTitleLine l) := by
  unfold soleTitleLine; infer_instance

instance indentedContentLine.instDec (l : List Char) :
    Decidable (indentedContentLine l) := by
  unfold indentedContentLine; infer_instance

instance claimedTitlePattern.instDec (s : List Char) :
    Decidable (claimedTitlePattern s) := by
  unfold claimedTitlePattern; infer_instance

/-- Counterexample text for claim C1: `Title` occurs only as a suffix of
the word `SubTitle`. -/
def c1Ex : List Char := "SubTitle\n\tFoo".toList

/-- Claim C1 is false as stated: the text `"SubTitle\n\tFoo"` has no line
consisting solely of `Title`, yet the title check passes (the regex is
unanchored) and extracts `Foo`. -/
theorem title_check_counterexample :
    hasTitleCheck c1Ex = true ∧ extractedTitle c1Ex = some ("Foo".toList) ∧
      ¬ claimedTitlePattern c1Ex := by decide

/-! ### Declarative characterisation of the title check (amended C1). -/

/-- The pattern `Title\s*\n[ \t]+[^\n]+` matches at position `i`:
`Title` occurs there, followed by a run of whitespace, a newline, and a
tail accepted by `[ \t]+[^\n]+`. -/
def TitleMatchProp (s : List Char) (i : Nat) : Prop :=
  ("Title".toList).isPrefixOf (s.drop i) = true ∧
    ∃ j, (∀ c ∈ (s.drop (i + 5)).take j, pyIsSpace c = true) ∧
      (s.drop (i + 5))[j]? = some '\n' ∧
      tailOk ((s.drop (i + 5)).drop (j + 1)) = true

lemma all_take_of_le_takeWhileLen {p : Char → Bool} :
    ∀ (t : List Char) (j : Nat), j ≤ (t.takeWhile p).length →
      ∀ c ∈ t.take j, p c = true := by
  intro t
  induction t with
  | nil =>
    intro j h c hc
    simp at hc
  | cons a t ih =>
    intro j h c hc
    cases j with
    | zero => simp at hc
    | succ j =>
      cases hp : p a with
      | false =>
        rw [List.takeWhile_cons, hp] at h
        simp at h
      | true =>
        rw [List.takeWhile_cons, hp] at h
        simp only [if_true, cond_true, List.length_cons] at h
        rw [List.take_succ_cons] at hc
        rcases List.mem_cons.mp hc with rfl | hc2
        · exact hp
        · exact ih j (by omega) c hc2

lemma takeWhileLen_ge {p : Char → Bool} :
    ∀ (t : List Char) (j : Nat), j ≤ t.length →
      (∀ c ∈ t.take j, p c = true) → j ≤ (t.takeWhile p).length := by
  intro t
  induction t with
  | nil =>
    intro j h _
    simpa using h
  | cons a t ih =>
    intro j h hall
    cases j with
    | zero => omega
    | succ j =>
      have hpa : p a = true := hall a (by rw [List.take_succ_cons]; exact List.mem_cons_self a _)
      rw [List.takeWhile_cons, hpa]
      simp only [if_true, cond_true, List.length_cons]
      have : j ≤ (t.takeWhile p).length := by
        refine ih j (by simpa using h) ?_
        intro c hc
        exact hall c (by rw [List.take_succ_cons]; exact List.mem_cons_of_mem a hc)
      omega

lemma lt_wsRunLen_of {t : List Char} {j : Nat} (hnl : t[j]? = some '\n')
    (hall : ∀ c ∈ t.take j, pyIsSpace c = true) : j < wsRunLen t := by
  have hjlen : j < t.length := by
    by_contra hge
    push_neg at hge
    rw [List.getElem?_eq_none hge] at hnl
    cases hnl
  have hall1 : ∀ c ∈ t.take (j + 1), pyIsSpace c = true := by
    rw [List.take_succ]
    intro c hc
    rcases List.mem_append.mp hc with h1 | h2
    · exact hall c h1
    · rw [hnl] at h2
      simp only [Option.toList_some, List.mem_singleton] at h2
      rw [h2]
      decide
  have := takeWhileLen_ge t (j + 1) (by omega) hall1
  unfold wsRunLen
  omega

lemma all_take_of_lt_wsRunLen {t : List Char} {j : Nat} (h : j < wsRunLen t) :
    ∀ c ∈ t.take j, pyIsSpace c = true :=
  all_take_of_le_takeWhileLen t j (by unfold wsRunLen at h; omega)

lemma greedyNewline_isSome_iff (t : List Char) :
    (greedyNewline t).isSome = true ↔
      ∃ j, (∀ c ∈ t.take j, pyIsSpace c = true) ∧ t[j]? = some '\n' ∧
        tailOk (t.drop (j + 1)) = true := by
  unfold greedyNewline
  rw [List.find?_isSome]
  constructor
  · rintro ⟨j, hj, hp⟩
    rw [List.mem_reverse, List.mem_range] at hj
    rw [Bool.and_eq_true, decide_eq_true_eq] at hp
    exact ⟨j, all_take_of_lt_wsRunLen hj, hp.1, hp.2⟩
  · rintro ⟨j, hall, hnl, htail⟩
    refine ⟨j, ?_, ?_⟩
    · rw [List.mem_reverse, List.mem_range]
      exact lt_wsRunLen_of hnl hall
    · rw [Bool.and_eq_true, decide_eq_true_eq]
      exact ⟨hnl, htail⟩

lemma titleBlockAt_isSome_iff (s : List Char) (i : Nat) :
    (titleBlockAt s i).isSome = true ↔ TitleMatchProp s i := by
  unfold titleBlockAt TitleMatchProp
  by_cases hp : ("Title".toList).isPrefixOf (s.drop i) = true
  · rw [if_pos hp, Option.isSome_map', greedyNewline_isSome_iff]
    simp only [hp, true_and]
  · rw [if_neg hp]
    simp only [Option.isSome_none, Bool.false_eq_true, false_iff]
    rintro ⟨hp2, _⟩
    exact hp hp2

lemma titleBlockAt_lt {s : List Char} {i : Nat}
    (h : titleBlockAt s i ≠ none) : i < s.length := by
  by_contra hge
  push_neg at hge
  unfold titleBlockAt at h
  rw [List.drop_eq_nil_iff.mpr hge] at h
  rw [if_neg (by decide)] at h
  exact h rfl

lemma findSome?_range_eq_none {β : Type} (f : Nat → Option β) :
    ∀ n : Nat, (List.range n).findSome? f = none ↔ ∀ k < n, f k = none := by
  intro n
  induction n with
  | zero => simp [List.range_zero]
  | succ n ih =>
    rw [List.range_succ, List.findSome?_append]
    constructor
    · intro h
      have h1 : (List.range n).findSome? f = none := by
        cases hh : (List.range n).findSome? f with
        | none => rfl
        | some b => rw [hh] at h; exact absurd h (by simp [Option.or])
      have h2 : f n = none := by
        rw [h1, Option.none_or, List.findSome?_cons] at h
        cases hfn : f n with
        | none => rfl
        | some b => rw [hfn] at h; exact absurd h (by simp)
      intro k hk
      rcases Nat.lt_succ_iff_lt_or_eq.mp hk with hlt | rfl
      · exact ih.mp h1 k hlt
      · exact h2
    · intro h
      have h1 : (List.range n).findSome? f = none :=
        ih.mpr (fun k hk => h k (by omega))
      have h2 : f n = none := h n (by omega)
      rw [h1, Option.none_or, List.findSome?_cons, h2]
      rfl

lemma findSome?_range_eq_some {β : Type} (f : Nat → Option β) :
    ∀ (n : Nat) (b : β), (List.range n).findSome? f = some b ↔
      ∃ i < n, f i = some b ∧ ∀ k < i, f k = none := by
  intro n
  induction n with
  | zero =>
    intro b
    simp [List.range_zero]
  | succ n ih =>
    intro b
    rw [List.range_succ, List.findSome?_append]
    cases hA : (List.range n).findSome? f with
    | some b0 =>
      have hor : (some b0).or ([n].findSome? f) = some b0 := rfl
      rw [hor]
      obtain ⟨i0, hi0, hfi0, hlf0⟩ := (ih b0).mp hA
      constructor
      · intro h
        have hb : b0 = b := by injection h
        exact ⟨i0, by omega, hb ▸ hfi0, hlf0⟩
      · rintro ⟨i, hi, hfi, hlf⟩
        have hieq : i = i0 := by
          by_contra hne
          rcases Nat.lt_or_ge i i0 with hlt | hge
          · rw [hlf0 i hlt] at hfi
            cases hfi
          · have : i0 < i := by omega
            rw [hlf i0 this] at hfi0
            cases hfi0
        subst hieq
        rw [hfi0] at hfi
        exact hfi
    | none =>
      rw [Option.none_or, List.findSome?_cons]
      have hforall := (findSome?_range_eq_none f n).mp hA
      cases hfn : f n with
      | some b0 =>
        constructor
        · intro h
          refine ⟨n, by omega, ?_, fun k hk => hforall k hk⟩
          rw [hfn]
          exact h
        · rintro ⟨i, hi, hfi, hlf⟩
          have hieq : i = n := by
            by_contra hne
            have : i < n := by omega
            rw [hforall i this] at hfi
            cases hfi
          subst hieq
          rw [hfn] at hfi
          exact hfi
      | none =>
        constructor
        · intro h
          rw [show List.findSome? f ([] : List Nat) = none from rfl] at h
          cases h
        · rintro ⟨i, hi, hfi, hlf⟩
          rcases Nat.lt_succ_iff_lt_or_eq.mp hi with hlt | rfl
          · rw [hforall i hlt] at hfi
            cases hfi
          · rw [hfn] at hfi
            cases hfi

lemma titleSearch_eq_some_iff (s : List Char) (g : List Char) :
    titleSearch s = some g ↔
      ∃ i, titleBlockAt s i = some g ∧ ∀ k < i, titleBlockAt s k = none := by
  unfold titleSearch
  rw [findSome?_range_eq_some]
  constructor
  · rintro ⟨i, _, hfi, hlf⟩
    exact ⟨i, hfi, hlf⟩
  · rintro ⟨i, hfi, hlf⟩
    exact ⟨i, titleBlockAt_lt (by rw [hfi]; simp), hfi, hlf⟩

lemma hasTitleCheck_true_iff (s : List Char) :
    hasTitleCheck s = true ↔ ∃ g, titleSearch s = some g ∧ pyStrip g ≠ [] := by
  cases hts : titleSearch s with
  | none =>
    rw [show hasTitleCheck s = false by unfold hasTitleCheck; rw [hts]]
    simp [hts]
  | some g0 =>
    rw [show hasTitleCheck s = !(pyStrip g0).isEmpty by unfold hasTitleCheck; rw [hts]]
    constructor
    · intro h
      refine ⟨g0, rfl, fun he => ?_⟩
      rw [he] at h
      exact absurd h (by decide)
    · rintro ⟨g, hg, hne⟩
      injection hg with hgg
      subst hgg
      cases hempty : (pyStrip g0).isEmpty with
      | false => rfl
      | true => exact absurd (List.isEmpty_iff.mp hempty) hne

lemma extractedTitle_eq_of (s g : List Char) (hts : titleSearch s = some g)
    (hne : pyStrip g ≠ []) : extractedTitle s = some (pyStrip g) := by
  unfold extractedTitle
  rw [hts]
  show (if (pyStrip g).isEmpty = true then none else some (pyStrip g)) = some (pyStrip g)
  rw [if_neg (fun hh => hne (List.isEmpty_iff.mp hh))]

/-- Amended claim C1: the title check passes iff the regex pattern
(`Title` anywhere — even inside a longer word — then optional whitespace,
a newline, and a space-or-tab-led line) matches somewhere, and the
leftmost match's greedily captured content is non-empty after trimming;
the extracted title is that leftmost match's trimmed content. -/
theorem title_check_amended (s : List Char) :
    (hasTitleCheck s = true ↔
      ∃ i, TitleMatchProp s i ∧ (∀ k < i, ¬ TitleMatchProp s k) ∧
        ∃ g, titleBlockAt s i = some g ∧ pyStrip g ≠ []) ∧
    ∀ i g, titleBlockAt s i = some g → (∀ k < i, titleBlockAt s k = none) →
      pyStrip g ≠ [] → extractedTitle s = some (pyStrip g) := by
  constructor
  · rw [hasTitleCheck_true_iff]
    constructor
    · rintro ⟨g, hts, hne⟩
      obtain ⟨i0, hg0, hlf0⟩ := (titleSearch_eq_some_iff s g).mp hts
      refine ⟨i0, (titleBlockAt_isSome_iff s i0).mp (by rw [hg0]; rfl), ?_, g, hg0, hne⟩
      intro k hk hm
      have h4 := (titleBlockAt_isSome_iff s k).mpr hm
      rw [hlf0 k hk] at h4
      cases h4
    · rintro ⟨i, hmi, hlfp, g, hg, hne⟩
      refine ⟨g, ?_, hne⟩
      apply (titleSearch_eq_some_iff s g).mpr
      refine ⟨i, hg, fun k hk => ?_⟩
      cases hbk : titleBlockAt s k with
      | none => rfl
      | some gb =>
        exact absurd ((titleBlockAt_isSome_iff s k).mp (by rw [hbk]; rfl)) (hlfp k hk)
  · intro i g hg hlf hne
    exact extractedTitle_eq_of s g ((titleSearch_eq_some_iff s g).mpr ⟨i, hg, hlf⟩) hne

/-- Witness for the amended claim C1 at the counterexample text: the
leftmost match is at position 3 and extracts `Foo`. -/
theorem title_check_amended_witness :
    titleBlockAt c1Ex 3 = some ("Foo".toList) ∧
      extractedTitle c1Ex = some (pyStrip ("Foo".toList)) :=
  ⟨by decide,
    (title_check_amended c1Ex).2 3 ("Foo".toList) (by decide) (by decide) (by decide)⟩

/-! ## Directory validator scan (`get_valid_art_directories`,
`stripDirStringToImageFormat`) and the merge script's
`derive_image_basename_from_folder`.

The filesystem is modelled as data: a directory is a name plus its file
entries in iteration order; whether the external image decoder accepts a
file is an attribute of the entry.  `valid_images` is the accumulator
initialised once before the directory loop (line 32 of the script), so it
carries candidates across directories. -/

/-- ASCII digit (regex `\d`, ASCII inputs). -/
def isAsciiDigit (c : Char) : Bool := 48 ≤ c.toNat && c.toNat ≤ 57

/-- ASCII alphanumeric: the characters kept by `re.sub(r'[-_\W]+', '', s)`
(ASCII inputs; Python also keeps non-ASCII word characters). -/
def isAsciiAlphanum (c : Char) : Bool := isAsciiAlpha c || isAsciiDigit c

/-- A file entry: its name, whether the image decoder accepts it, and its
text content (used only for the description file). -/
structure FSFile where
  name : List Char
  isImage : Bool
  content : List Char
deriving DecidableEq

/-- A directory entry: its name and its files in iteration order. -/
structure FSDir where
  name : List Char
  files : List FSFile
deriving DecidableEq

/-- Index of the last occurrence of `c` in `l`. -/
def lastIdxOf (c : Char) (l : List Char) : Option Nat :=
  match (l.reverse).findIdx? (fun x => x = c) with
  | some k => some (l.length - 1 - k)
  | none => none

/-- `pathlib.PurePath.suffix`: the part of the name from its last dot,
provided that dot is neither the first nor the last character. -/
def pathSuffix (n : List Char) : List Char :=
  match lastIdxOf '.' n with
  | some i => if 0 < i ∧ i < n.length - 1 then n.drop i else []
  | none => []

/-- `stripDirStringToImageFormat`: split once on the first dash (raising
`ValueError` when there is none), drop every non-alphanumeric character
from the remainder, and prepend the brand prefix. -/
def stripDirStringToImageFormat (n : List Char) : Except (List Char) (List Char) :=
  match n.findIdx? (fun c => c = '-') with
  | none => Except.error ("ValueError".toList)
  | some i => Except.ok ("LindseyAyres_".toList ++ (n.drop (i + 1)).filter isAsciiAlphanum)

/-- `derive_image_basename_from_folder` (merge script): strip a leading
digits-plus-dash prefix if present (`re.sub(r'^\d+-', '', name)`), remove
underscores, prepend the brand prefix.  No error path. -/
def derive_image_basename_from_folder (n : List Char) : List Char :=
  let ds := n.takeWhile isAsciiDigit
  let stripped :=
    if ds ≠ [] ∧ (n.drop ds.length).head? = some '-' then n.drop (ds.length + 1) else n
  "LindseyAyres_".toList ++ stripped.filter (fun c => c ≠ '_')

/-- The image candidates collected inside one directory: files whose
lower-cased suffix is not `.txt` and that the decoder accepts. -/
def candidateFiles (d : FSDir) : List FSFile :=
  d.files.filter (fun f =>
    decide (lowerList (pathSuffix f.name) ≠ ".txt".toList) && f.isImage)

/-- Per-directory outcome of the validation loop. -/
structure DirResult where
  dirName : List Char
  hasTxt : Bool
  hasTitle : Bool
  title : Option (List Char)
  hasImg : Bool
  hasMatch : Bool
  largeImage : Option (List Char × List Char)
  valid : Bool
deriving DecidableEq

/-- One iteration of the directory loop, taking and returning the shared
`valid_images` accumulator (pairs of the owning directory's name and the
file name). -/
def processDir (acc : List (List Char × List Char)) (d : FSDir) :
    Except (List Char) (DirResult × List (List Char × List Char)) :=
  let txtName := d.name ++ ".txt".toList
  let txtFile := d.files.find? (fun f => f.name = txtName)
  let hasTxt := txtFile.isSome
  let titleOpt := match txtFile with
    | some f => extractedTitle f.content
    | none => none
  let cands := candidateFiles d
  let acc2 := acc ++ cands.map (fun f => (d.name, f.name))
  if cands.isEmpty then
    Except.ok
      ({ dirName := d.name, hasTxt := hasTxt, hasTitle := titleOpt.isSome,
         title := titleOpt, hasImg := false, hasMatch := false,
         largeImage := none, valid := false }, acc2)
  else
    match stripDirStringToImageFormat d.name with
    | Except.error e => Except.error e
    | Except.ok base =>
      let firstMatch := acc2.find? (fun p =>
        decide (lowerList (base ++ lowerList (pathSuffix p.2)) = lowerList p.2))
      Except.ok
        ({ dirName := d.name, hasTxt := hasTxt, hasTitle := titleOpt.isSome,
           title := titleOpt, hasImg := true, hasMatch := firstMatch.isSome,
           largeImage := firstMatch,
           valid := hasTxt && titleOpt.isSome && firstMatch.isSome }, acc2)

/-- Codepoint-wise lexicographic order on character lists (Python string
comparison). -/
def charListLe : List Char → List Char → Bool
  | [], _ => true
  | _ :: _, [] => false
  | a :: as, b :: bs =>
    if a.toNat < b.toNat then true
    else if b.toNat < a.toNat then false
    else charListLe as bs

/-- Stable insertion used to model Python's stable `sorted`. -/
def insertSortedDir (le : FSDir → FSDir → Bool) (a : FSDir) :
    List FSDir → List FSDir
  | [] => [a]
  | b :: t => if le a b then a :: b :: t else b :: insertSortedDir le a t

/-- `sorted(art_dirs, key=lambda x: x.name.lower())`. -/
def sortDirsByLowerName (ds : List FSDir) : List FSDir :=
  ds.foldr (insertSortedDir (fun d1 d2 => charListLe (lowerList d1.name) (lowerList d2.name))) []

/-- The directory loop over the sorted directories, threading the shared
accumulator; an uncaught `ValueError` aborts the whole scan. -/
def scanDirs : List FSDir → List (List Char × List Char) →
    Except (List Char) (List DirResult)
  | [], _ => Except.ok []
  | d :: t, acc =>
    match processDir acc d with
    | Except.error e => Except.error e
    | Except.ok (r, acc2) =>
      match scanDirs t acc2 with
      | Except.error e => Except.error e
      | Except.ok rs => Except.ok (r :: rs)

/-- `get_valid_art_directories` on a modelled directory tree. -/
def get_valid_art_directories (ds : List FSDir) : Except (List Char) (List DirResult) :=
  scanDirs (sortDirsByLowerName ds) []

instance instDecEqExcept {e a : Type} [DecidableEq e] [DecidableEq a] :
    DecidableEq (Except e a)
  | Except.error x, Except.error y =>
    if h : x = y then isTrue (by rw [h])
    else isFalse (fun hh => h (by injection hh))
  | Except.error _, Except.ok _ => isFalse (fun hh => Except.noConfusion hh)
  | Except.ok _, Except.error _ => isFalse (fun hh => Except.noConfusion hh)
  | Except.ok x, Except.ok y =>
    if h : x = y then isTrue (by rw [h])
    else isFalse (fun hh => h (by injection hh))

/-- Description file helper for concrete inputs. -/
def mkTxt (n content : List Char) : FSFile := ⟨n, false, content⟩

/-- Image file helper for concrete inputs. -/
def mkImg (n : List Char) : FSFile := ⟨n, true, []⟩

/-- Failing input for claim C2: directory `01-Bar` holds an image named
after directory `02-Foo`'s expected basename. -/
def c2DirA : FSDir :=
  ⟨"01-Bar".toList,
   [mkTxt ("01-Bar.txt".toList) ("Title\n\tBar".toList),
    mkImg ("LindseyAyres_Foo.jpg".toList)]⟩

/-- Failing input for claim C2: directory `02-Foo` has no image of its
own matching its expected basename. -/
def c2DirB : FSDir :=
  ⟨"02-Foo".toList,
   [mkTxt ("02-Foo.txt".toList) ("Title\n\tFoo".toList),
    mkImg ("other.jpg".toList)]⟩

/-- Claim C2 fails on the code: because `valid_images` accumulates across
directories, `02-Foo` passes the matched-image check with `01-Bar`'s file
recorded as its primary image, although none of `02-Foo`'s own candidates
matches its expected basename. -/
theorem crossdir_image_match_bug :
    get_valid_art_directories [c2DirA, c2DirB] =
      Except.ok
        [{ dirName := "01-Bar".toList, hasTxt := true, hasTitle := true,
           title := some ("Bar".toList), hasImg := true, hasMatch := false,
           largeImage := none, valid := false },
         { dirName := "02-Foo".toList, hasTxt := true, hasTitle := true,
           title := some ("Foo".toList), hasImg := true, hasMatch := true,
           largeImage := some ("01-Bar".toList, "LindseyAyres_Foo.jpg".toList),
           valid := true }] ∧
      stripDirStringToImageFormat ("02-Foo".toList) =
        Except.ok ("LindseyAyres_Foo".toList) ∧
      candidateFiles c2DirB = [mkImg ("other.jpg".toList)] ∧
      lowerList ("LindseyAyres_Foo".toList ++
          lowerList (pathSuffix ("other.jpg".toList))) ≠
        lowerList ("other.jpg".toList) := by decide

/-- Claim C6 is false for the merge script: `derive_image_basename_from_folder`
applied to the dash-less name `NoDash` silently returns the brand prefix
glued onto the unsplit name instead of failing. -/
theorem derive_basename_counterexample :
    ('-' ∉ "NoDash".toList) ∧
      derive_image_basename_from_folder ("NoDash".toList) =
        "LindseyAyres_".toList ++ "NoDash".toList := by decide

/-- Amended claim C6: for a dash-less directory name the validator's
`stripDirStringToImageFormat` does fail with a `ValueError`, but the merge
script's `derive_image_basename_from_folder` does not: it returns the
brand prefix glued onto the name (underscores removed), since its regex
only strips a leading digits-dash prefix. -/
theorem basename_no_dash_amended (n : List Char) (h : '-' ∉ n) :
    stripDirStringToImageFormat n = Except.error ("ValueError".toList) ∧
      derive_image_basename_from_folder n =
        "LindseyAyres_".toList ++ n.filter (fun c => c ≠ '_') := by
  constructor
  · unfold stripDirStringToImageFormat
    rw [List.findIdx?_eq_none_iff.mpr]
    intro x hx
    simp only [decide_eq_false_iff_not]
    intro he
    exact h (he ▸ hx)
  · have hcond : ¬ ((n.takeWhile isAsciiDigit) ≠ [] ∧
        (n.drop (n.takeWhile isAsciiDigit).length).head? = some '-') := by
      rintro ⟨-, hhd⟩
      exact h (List.mem_of_mem_drop (List.mem_of_mem_head? (by rw [hhd]; rfl)))
    simp only [derive_image_basename_from_folder]
    rw [if_neg hcond]

/-- Witness for the amended claim C6 at the name `NoDash`. -/
theorem basename_no_dash_witness :
    ('-' ∉ "NoDash".toList) ∧
      (stripDirStringToImageFormat ("NoDash".toList) =
          Except.error ("ValueError".toList) ∧
        derive_image_basename_from_folder ("NoDash".toList) =
          "LindseyAyres_".toList ++ ("NoDash".toList).filter (fun c => c ≠ '_')) :=
  ⟨by decide, basename_no_dash_amended ("NoDash".toList) (by decide)⟩

/-! ## Ratio matcher (`add_valid_ratios.py`): the static catalog,
`format_size`, `calculate_ratio` and `find_matching_print_sizes`.
Arithmetic is modelled in `ℚ` (every value handled here is an exact
decimal, far from the 2% tolerance boundary, so the Python float
computation decides every comparison the same way). -/

/-- `VALID_PRINT_SIZES`: the catalog grouped by display label. -/
def VALID_PRINT_SIZES : List (List Char × List (ℚ × ℚ)) :=
  [("1:1".toList,
    [(6, 6), (8, 8), (10, 10), (12, 12), (14, 14), (16, 16), (18, 18),
     (20, 20), (23, 23), (24, 24), (28, 28), (30, 30), (32, 32),
     (36, 36), (40, 40)]),
   ("2:3".toList,
    [(4, 6), (8, 12), (12, 18), (16, 24), (20, 30), (24, 36),
     (32, 48), (36, 54), (40, 60), (18, 27)]),
   ("3:4".toList,
    [(6, 8), (9, 12), (12, 16), (18, 24), (24, 32), (30, 40), (36, 48)]),
   ("4:5".toList,
    [(8, 10), (12, 15), (16, 20), (20, 25), (24, 30), (36, 45), (40, 50)]),
   ("Other".toList,
    [(3, 7), (4, 10), (5, 7), (5, 10), (5, 12), (6.8, 16), (6, 12),
     (8, 20), (8, 24), (8, 28), (8.5, 11), (9, 11), (9, 18), (10, 13),
     (10, 17), (10, 20), (10, 24), (10, 30), (10, 36), (11, 14),
     (11, 17), (11, 22), (12, 14), (12, 20), (12, 24), (12, 30),
     (12, 36), (13, 17), (13, 19), (14, 18), (14, 20), (14, 23),
     (14, 24), (14, 28), (14, 36), (14, 50), (15, 30), (16, 22),
     (16, 27), (16, 30), (16, 32), (16, 36), (16, 37), (16, 48),
     (17, 20), (17, 23), (18, 20), (18, 22), (18, 26), (18, 30),
     (18, 36), (18, 43), (18, 45), (18, 47), (18, 50), (18, 54),
     (19, 27), (20, 24), (20, 26), (20, 28), (20, 33), (20, 36),
     (21, 30), (20, 40), (20, 60), (22, 28), (22, 30), (22, 34),
     (22, 36), (24, 28), (24, 38), (24, 40), (24, 45), (24, 48),
     (24, 56), (24, 60), (24, 65), (24, 90), (26, 34), (26, 40),
     (27, 30), (27, 40), (28, 36), (28, 38), (28, 40), (28, 48),
     (30, 50), (30, 60), (30, 75), (32, 42), (32, 44), (32, 54),
     (36, 40), (36, 50), (36, 60), (36, 70), (5.1, 7.1), (7.9, 9.8),
     (17.7, 23.6), (23.6, 35.4), (39.4, 55.1)])]

/-- `ALL_VALID_SIZES`: the catalog flattened in group order. -/
def ALL_VALID_SIZES : List (ℚ × ℚ) := (VALID_PRINT_SIZES.map Prod.snd).flatten

/-- Decimal digits of a natural number (`fuel` bounds the digit count and
keeps the recursion structural). -/
def natToStrAux : Nat → Nat → List Char
  | 0, _ => []
  | fuel + 1, n =>
    if n < 10 then [Char.ofNat (48 + n)]
    else natToStrAux fuel (n / 10) ++ [Char.ofNat (48 + n % 10)]

/-- Decimal digits of a natural number. -/
def natToStr (n : Nat) : List Char := natToStrAux (n + 1) n

/-- Python string form of a positive catalog value: `str(int(q))` for a
whole number, otherwise `str(q)` with its single decimal digit. -/
def qToPyStr (q : ℚ) : List Char :=
  if q.den = 1 then natToStr q.num.toNat
  else natToStr ((10 * q).num.toNat / 10) ++ ['.'] ++ natToStr ((10 * q).num.toNat % 10)

/-- `format_size`. -/
def format_size (w h : ℚ) : List Char := qToPyStr w ++ ['x'] ++ qToPyStr h

/-- `float` of a decimal string, used for the sort key
`(float(x.split('x')[0]), float(x.split('x')[1]))`. -/
def natStrToNat (s : List Char) : Nat := s.foldl (fun a c => a * 10 + (c.toNat - 48)) 0

/-- Value of a non-negative decimal string. -/
def decStrToQ (s : List Char) : ℚ :=
  match s.splitOn '.' with
  | [i] => natStrToNat i
  | [i, f] => natStrToNat i + (natStrToNat f : ℚ) / 10 ^ f.length
  | _ => 0

/-- Numeric sort key of a formatted `WxH` string. -/
def sizeKey (s : List Char) : ℚ × ℚ :=
  match s.splitOn 'x' with
  | [a, b] => (decStrToQ a, decStrToQ b)
  | _ => (0, 0)

/-- Comparison of formatted sizes by width then height. -/
def sizeKeyLe (a b : List Char) : Bool :=
  decide ((sizeKey a).1 < (sizeKey b).1) ||
    (decide ((sizeKey a).1 = (sizeKey b).1) && decide ((sizeKey a).2 ≤ (sizeKey b).2))

/-- Stable insertion for the final `sorted(...)`. -/
def insertSortedStr (a : List Char) : List (List Char) → List (List Char)
  | [] => [a]
  | b :: t => if sizeKeyLe a b then a :: b :: t else b :: insertSortedStr a t

/-- `sorted(strings, key=sizeKey)`. -/
def sortBySizeKey (l : List (List Char)) : List (List Char) :=
  l.foldr insertSortedStr []

/-- The matching loop of `find_matching_print_sizes` for a given artwork
ratio, followed by `sorted(set(matches), key=...)`. -/
def ratioMatches (r tol : ℚ) : List (List Char) :=
  sortBySizeKey
    ((ALL_VALID_SIZES.filterMap (fun p =>
      if |r - p.1 / p.2| / r ≤ tol then some (format_size p.1 p.2) else none)).dedup)

/-- `find_matching_print_sizes`.  A zero height raises `ZeroDivisionError`
at `artwork_w / artwork_h`; a zero ratio raises it at the first
`ratio_diff` division (the catalog is non-empty, so the division is
always reached). -/
def find_matching_print_sizes (artwork_w artwork_h tol : ℚ) :
    Except (List Char) (List (List Char)) :=
  if artwork_h = 0 then Except.error ("ZeroDivisionError".toList)
  else if artwork_w / artwork_h = 0 then Except.error ("ZeroDivisionError".toList)
  else Except.ok (ratioMatches (artwork_w / artwork_h) tol)

/-- Python `round` on a rational: nearest integer, ties to even. -/
def pyRound (q : ℚ) : ℤ :=
  let n := ⌊q⌋
  let f := q - n
  if f < 1/2 then n
  else if 1/2 < f then n + 1
  else if n % 2 = 0 then n else n + 1

/-- `calculate_ratio`: scale by ten, round, divide by the gcd (the two
divisions are Python float divisions, hence exact rationals here). -/
def calculate_ratio (width height : ℚ) : ℚ × ℚ :=
  let w_int := pyRound (width * 10)
  let h_int := pyRound (height * 10)
  let g := Int.gcd w_int h_int
  ((w_int : ℚ) / (g : ℚ), (h_int : ℚ) / (g : ℚ))

/-- Claim C5: a query with height zero makes the ratio matcher raise an
explicit division-by-zero error instead of returning any list. -/
theorem ratio_match_zero_height (w tol : ℚ) :
    find_matching_print_sizes w 0 tol = Except.error ("ZeroDivisionError".toList) := by
  unfold find_matching_print_sizes
  rw [if_pos rfl]

/-- The match list the code produces for the query `(1200, 1800)`. -/
def c7List : List (List Char) :=
  ["4x6".toList, "8x12".toList, "12x18".toList, "16x24".toList,
   "18x27".toList, "20x30".toList, "23.6x35.4".toList, "24x36".toList,
   "27x40".toList, "32x48".toList, "36x54".toList, "40x60".toList]

unseal Rat.mul Rat.inv Rat.add Rat.sub Rat.ofScientific in
/-- Claim C7: the query `(1200, 1800)` (ratio 2:3) matches a list that
contains `4x6` and `24x36`, and no catalog entry whose relative ratio
error exceeds 2% appears in it. -/
theorem ratio_match_1200_1800 :
    find_matching_print_sizes 1200 1800 (1/50) = Except.ok c7List ∧
      "4x6".toList ∈ c7List ∧ "24x36".toList ∈ c7List ∧
      ∀ p ∈ ALL_VALID_SIZES,
        (1/50 : ℚ) < |(1200 : ℚ) / 1800 - p.1 / p.2| / ((1200 : ℚ) / 1800) →
          format_size p.1 p.2 ∉ c7List := by decide

unseal Rat.mul Rat.inv Rat.add Rat.sub Rat.ofScientific in
/-- Witness for claim C7's exclusion clause at the square entry `(6, 6)`,
whose ratio differs from 2:3 by 50%. -/
theorem ratio_match_1200_1800_witness :
    ((6 : ℚ), (6 : ℚ)) ∈ ALL_VALID_SIZES ∧
      ((1 : ℚ)/50 < |(1200 : ℚ) / 1800 - (6 : ℚ) / 6| / ((1200 : ℚ) / 1800)) ∧
      format_size 6 6 ∉ c7List :=
  ⟨by decide, by decide,
    ratio_match_1200_1800.2.2.2 ((6 : ℚ), (6 : ℚ)) (by decide) (by decide)⟩

lemma pyRound_intCast (a : ℤ) : pyRound ((a : ℚ)) = a := by
  simp only [pyRound, Int.floor_intCast, sub_self]
  rw [if_pos (by norm_num)]

/-- Claim C4: for positive dimensions whose ten-fold scalings are
integers, matching the GCD-simplified ratio pair produced by
`calculate_ratio` gives exactly the same result as matching the original
width and height: the simplification does not change the match set. -/
theorem simplified_ratio_same_matches (w h : ℚ) (hw : 0 < w) (hh : 0 < h)
    (hwa : ∃ a : ℤ, w * 10 = (a : ℚ)) (hhb : ∃ b : ℤ, h * 10 = (b : ℚ)) :
    find_matching_print_sizes (calculate_ratio w h).1 (calculate_ratio w h).2 (1/50) =
      find_matching_print_sizes w h (1/50) := by
  obtain ⟨a, ha⟩ := hwa
  obtain ⟨b, hb⟩ := hhb
  have hra : pyRound (w * 10) = a := by rw [ha, pyRound_intCast]
  have hrb : pyRound (h * 10) = b := by rw [hb, pyRound_intCast]
  have hapos : 0 < a := by
    have h10 : (0 : ℚ) < (a : ℚ) := by rw [← ha]; positivity
    exact_mod_cast h10
  have hbpos : 0 < b := by
    have h10 : (0 : ℚ) < (b : ℚ) := by rw [← hb]; positivity
    exact_mod_cast h10
  have hgpos : 0 < Int.gcd a b := Int.gcd_pos_iff.mpr (Or.inl (by omega))
  have hc1 : (calculate_ratio w h).1 = (a : ℚ) / ((Int.gcd a b : ℕ) : ℚ) := by
    simp [calculate_ratio, hra, hrb]
  have hc2 : (calculate_ratio w h).2 = (b : ℚ) / ((Int.gcd a b : ℕ) : ℚ) := by
    simp [calculate_ratio, hra, hrb]
  have hgQ : (((Int.gcd a b : ℕ) : ℚ)) ≠ 0 := by
    have : (0 : ℚ) < ((Int.gcd a b : ℕ) : ℚ) := by exact_mod_cast hgpos
    exact ne_of_gt this
  have hbQ : ((b : ℚ)) ≠ 0 := by
    have : (0 : ℚ) < (b : ℚ) := by exact_mod_cast hbpos
    exact ne_of_gt this
  have hhne : h ≠ 0 := ne_of_gt hh
  have hrh : (b : ℚ) / ((Int.gcd a b : ℕ) : ℚ) ≠ 0 := div_ne_zero hbQ hgQ
  have hratio : (a : ℚ) / ((Int.gcd a b : ℕ) : ℚ) / ((b : ℚ) / ((Int.gcd a b : ℕ) : ℚ)) =
      w / h := by
    have h1 : (a : ℚ) / ((Int.gcd a b : ℕ) : ℚ) / ((b : ℚ) / ((Int.gcd a b : ℕ) : ℚ)) =
        (a : ℚ) / (b : ℚ) := by field_simp
    rw [h1, ← ha, ← hb]
    have h10 : (10 : ℚ) ≠ 0 := by norm_num
    exact mul_div_mul_right w h h10
  have hwh : w / h ≠ 0 := div_ne_zero (ne_of_gt hw) hhne
  rw [hc1, hc2]
  unfold find_matching_print_sizes
  rw [hratio, if_neg hrh, if_neg hhne]

/-- Witness for claim C4 at the query `(3, 2)`. -/
theorem simplified_ratio_same_matches_witness :
    (0 : ℚ) < 3 ∧ (0 : ℚ) < 2 ∧ (3 : ℚ) * 10 = ((30 : ℤ) : ℚ) ∧
      (2 : ℚ) * 10 = ((20 : ℤ) : ℚ) ∧
      find_matching_print_sizes (calculate_ratio 3 2).1 (calculate_ratio 3 2).2 (1/50) =
        find_matching_print_sizes 3 2 (1/50) :=
  ⟨by norm_num, by norm_num, by norm_num, by norm_num,
    simplified_ratio_same_matches 3 2 (by norm_num) (by norm_num)
      ⟨30, by norm_num⟩ ⟨20, by norm_num⟩⟩

/-! ## Price parsing (`parse_price`, `determine_for_sale` in
`merge_artworks.py`).  Python `float()` on a decimal string is modelled
exactly over `ℚ`, with `inf`/`nan` as separate values (decimal strings in
this dataset are exact; overflow to infinity is not modelled). -/

/-- Result of Python `float()`. -/
inductive PyNum where
  | fin (q : ℚ)
  | inf
  | ninf
  | nan
deriving DecidableEq

/-- The comparison `... > 0` on a `float()` result. -/
def pyNumGtZero : PyNum → Bool
  | PyNum.fin q => decide (0 < q)
  | PyNum.inf => true
  | PyNum.ninf => false
  | PyNum.nan => false

/-- A Python float `digitpart`: digits with single underscores strictly
between digits. -/
def validDigitPart (l : List Char) : Bool :=
  decide (l ≠ []) &&
  l.all (fun c => isAsciiDigit c || c = '_') &&
  (match l.head? with | some c => isAsciiDigit c | none => false) &&
  (match l.getLast? with | some c => isAsciiDigit c | none => false) &&
  (l.zip l.tail).all (fun p => !(decide (p.1 = '_') && decide (p.2 = '_')))

/-- Value and digit count of a digit part. -/
def parseDigitPart (l : List Char) : Option (Nat × Nat) :=
  if validDigitPart l then
    some (natStrToNat (l.filter isAsciiDigit), (l.filter isAsciiDigit).length)
  else none

/-- The mantissa of a float literal: `digitpart`, or a point with a
digit part on at least one side. -/
def parseMantissa (l : List Char) : Option ℚ :=
  match l.splitOn '.' with
  | [ip] => (parseDigitPart ip).map (fun p => (p.1 : ℚ))
  | [ip, fp] =>
    if ip = [] then (parseDigitPart fp).map (fun p => (p.1 : ℚ) / 10 ^ p.2)
    else if fp = [] then (parseDigitPart ip).map (fun p => (p.1 : ℚ))
    else
      match parseDigitPart ip, parseDigitPart fp with
      | some pi2, some pf => some ((pi2.1 : ℚ) + (pf.1 : ℚ) / 10 ^ pf.2)
      | _, _ => none
  | _ => none

/-- The exponent of a float literal: optional sign and a digit part. -/
def parseExpPart (l : List Char) : Option ℤ :=
  match l with
  | '+' :: r => (parseDigitPart r).map (fun p => (p.1 : ℤ))
  | '-' :: r => (parseDigitPart r).map (fun p => -(p.1 : ℤ))
  | r => (parseDigitPart r).map (fun p => (p.1 : ℤ))

/-- Python `float(s)`: surrounding whitespace, an optional sign, then
`inf`/`infinity`/`nan` (case-insensitive) or a decimal literal with an
optional exponent. -/
def pyFloatOfString (l : List Char) : Option PyNum :=
  let t := pyStrip l
  let sgnRest : ℚ × List Char :=
    match t with
    | '+' :: r => (1, r)
    | '-' :: r => (-1, r)
    | r => (1, r)
  let sgn := sgnRest.1
  let low := lowerList sgnRest.2
  if low = "inf".toList ∨ low = "infinity".toList then
    some (if sgn = 1 then PyNum.inf else PyNum.ninf)
  else if low = "nan".toList then some PyNum.nan
  else
    match low.splitOn 'e' with
    | [m] => (parseMantissa m).map (fun q => PyNum.fin (sgn * q))
    | [m, e] =>
      match parseMantissa m, parseExpPart e with
      | some q, some ex => some (PyNum.fin (sgn * q * (10 : ℚ) ^ ex))
      | _, _ => none
    | _ => none

/-- `parse_price`: strip dollar signs and commas, map the special values
to zero, otherwise parse as a float, warning (and returning zero) on
failure. -/
def parse_price (price_str : List Char) : PyNum :=
  if pyStrip price_str = [] then PyNum.fin 0
  else
    let p := pyStrip ((price_str.filter (fun c => c ≠ '$')).filter (fun c => c ≠ ','))
    if lowerList p = "sold".toList ∨ lowerList p = "not for sale".toList ∨
        lowerList p = "n/a".toList ∨ lowerList p = "na".toList then PyNum.fin 0
    else
      match pyFloatOfString p with
      | some v => v
      | none => PyNum.fin 0

/-- `determine_for_sale`: false for blank text or text containing
`sold`/`not for sale` case-insensitively; otherwise true iff the parsed
price is positive. -/
def determine_for_sale (price_str : List Char) : Bool :=
  if pyStrip price_str = [] then false
  else
    if decide ("sold".toList <:+: lowerList price_str) ||
        decide ("not for sale".toList <:+: lowerList price_str) then false
    else pyNumGtZero (parse_price price_str)

unseal Rat.mul Rat.inv Rat.add Rat.sub in
/-- Claim C8: `determine_for_sale` returns false exactly when the price
text is blank, mentions `sold` or `not for sale` (case-insensitively), or
does not parse to a positive price; in particular it rejects `Sold` and
accepts `$50`. -/
theorem determine_for_sale_spec :
    (∀ s : List Char,
      determine_for_sale s = true ↔
        pyStrip s ≠ [] ∧ ¬ ("sold".toList <:+: lowerList s) ∧
          ¬ ("not for sale".toList <:+: lowerList s) ∧
          pyNumGtZero (parse_price s) = true) ∧
    determine_for_sale ("Sold".toList) = false ∧
    determine_for_sale ("$50".toList) = true := by
  refine ⟨fun s => ?_, by decide, by decide⟩
  unfold determine_for_sale
  by_cases h1 : pyStrip s = []
  · rw [if_pos h1]
    exact iff_of_false (by simp) (fun hc => hc.1 h1)
  · rw [if_neg h1]
    by_cases h2 : ("sold".toList <:+: lowerList s)
    · have hcnd : (decide ("sold".toList <:+: lowerList s) ||
          decide ("not for sale".toList <:+: lowerList s)) = true := by
        rw [Bool.or_eq_true, decide_eq_true_eq, decide_eq_true_eq]
        exact Or.inl h2
      rw [if_pos hcnd]
      exact iff_of_false (by simp) (fun hc => hc.2.1 h2)
    · by_cases h3 : ("not for sale".toList <:+: lowerList s)
      · have hcnd : (decide ("sold".toList <:+: lowerList s) ||
            decide ("not for sale".toList <:+: lowerList s)) = true := by
          rw [Bool.or_eq_true, decide_eq_true_eq, decide_eq_true_eq]
          exact Or.inr h3
        rw [if_pos hcnd]
        exact iff_of_false (by simp) (fun hc => hc.2.2.1 h3)
      · have hcnd : ¬ ((decide ("sold".toList <:+: lowerList s) ||
            decide ("not for sale".toList <:+: lowerList s)) = true) := by
          rw [Bool.or_eq_true, decide_eq_true_eq, decide_eq_true_eq]
          rintro (hh | hh)
          · exact h2 hh
          · exact h3 hh
        rw [if_neg hcnd]
        constructor
        · intro h
          exact ⟨h1, h2, h3, h⟩
        · rintro ⟨-, -, -, h⟩
          exact h
